import Mathlib

namespace Goto

/-!
Verification of the task-switcher core (`src/main.rs`) against its
natural-language specification.

The development shallowly embeds the Rust code:

* `TaskList` and its operations (`track`, `untrack`, `diff_update`,
  `update_title`, `select_newer`, `select_older`, `select_end`,
  `focus_by_index`, `focus_by_selection`, `focus_by_wid`, `unfocus`)
  follow the `impl TaskList` block line by line.  X11 `Window` (a `u32`
  used only through equality) is modelled as `Nat`; the external
  introspection collaborator `window_to_task` is a parameter
  `introspect : Nat → Option TaskInfo` (it is deterministic within one
  reconciliation in the claims under study).
* The layout engine (`compute_task_size`, `compute_window_geometry_row`)
  and the compositing primitives (`Frame.scale_bilinear`, `Frame.blit_frame`)
  compute with `f32`; they are embedded over `ℚ`.  Every concrete value
  appearing in the claims (screen sizes, border widths, task counts,
  8-bit colour channels and the interpolation weights derived from them)
  is small enough that the `f32` runs of the relevant expressions are
  exact or round to the same integers, so the rational model is faithful
  on the inputs the theorems touch.
* Fallible Rust code (slice indexing that can panic, `Option::unwrap`)
  is embedded with `Option`.
-/

/-- Rust `Task` from `src/main.rs`: one tracked top-level window.  `wid` is the
X11 window id (`u32`, used only through equality), `cls` the WM_CLASS
`(instance, class)` pair used as icon-cache key.  `PartialEq for Task`
compares `wid` only. -/
structure Task where
  wid : Nat
  title : String
  cls : String × String
deriving DecidableEq

/-- Rust `TaskList` from `src/main.rs`: ordered recency list of tasks plus an
optional selection index. -/
structure TaskList where
  tasks : List Task
  selected : Option Nat
deriving DecidableEq

/-- Rust `usize::checked_sub`: `some (n - m)` when it does not underflow. -/
def checkedSub (n m : Nat) : Option Nat :=
  if m ≤ n then some (n - m) else none

/-- Rust `TaskList::contains`: `self.tasks.iter().any(|task| task.wid == wid)`. -/
def TaskList.containsWid (tl : TaskList) (wid : Nat) : Bool :=
  tl.tasks.any (fun task => task.wid == wid)

/-- Helper for `TaskList::update_title`: `iter_mut().find(...)` mutates the
first task whose id matches. -/
def updateTitleList : List Task → Nat → String → List Task
  | [], _, _ => []
  | task :: rest, wid, title =>
    if task.wid == wid then { task with title := title } :: rest
    else task :: updateTitleList rest wid title

/-- Rust `TaskList::update_title`. -/
def TaskList.update_title (tl : TaskList) (wid : Nat) (title : String) : TaskList :=
  { tl with tasks := updateTitleList tl.tasks wid title }

/-- Rust `TaskList::track`: push unless already contained (`Vec::contains` uses
`PartialEq for Task`, i.e. wid equality). -/
def TaskList.track (tl : TaskList) (task : Task) : TaskList :=
  if tl.tasks.any (fun t => t.wid == task.wid) then tl
  else { tl with tasks := tl.tasks ++ [task] }

/-- Rust `TaskList::untrack`: retain tasks with a different wid, then clamp the
selection to the new last index (`len().checked_sub(1)`), clearing it when
the list became empty. -/
def TaskList.untrack (tl : TaskList) (wid : Nat) : TaskList :=
  let tasks := tl.tasks.filter (fun task => task.wid != wid)
  { tasks := tasks
    selected :=
      match tl.selected with
      | some sel =>
        match checkedSub tasks.length 1 with
        | some last => some (min sel last)
        | none => none
      | none => none }

/-- Window-introspection result: title and class pair, as produced by
`window_to_task` for a given window id (`None` for override-redirect or
unreadable windows). -/
structure TaskInfo where
  title : String
  cls : String × String
deriving DecidableEq

/-- Rust `TaskList::diff_update`: untrack every tracked window absent from
`wids`, then introspect and track every window of `wids` that is not
tracked after the removals.  `introspect` stands for the external
`window_to_task` collaborator; like `window_to_task`, a successful
introspection of `wid` yields a task whose id is exactly `wid`. -/
def TaskList.diff_update (introspect : Nat → Option TaskInfo)
    (tl : TaskList) (wids : List Nat) : TaskList :=
  let old_wids := (tl.tasks.filter (fun task => !(wids.contains task.wid))).map Task.wid
  let tl1 := old_wids.foldl TaskList.untrack tl
  let new_wids := wids.filter (fun wid => !(tl1.containsWid wid))
  let new_tasks := new_wids.filterMap
    (fun wid => (introspect wid).map (fun info => Task.mk wid info.title info.cls))
  new_tasks.foldl TaskList.track tl1

/-- Rust `TaskList::select_newer`. -/
def TaskList.select_newer (tl : TaskList) : TaskList :=
  if tl.tasks.isEmpty then tl
  else
    match tl.selected with
    | some sel => { tl with selected := some ((sel + 1) % tl.tasks.length) }
    | none => { tl with selected := checkedSub tl.tasks.length 1 }

/-- Rust `TaskList::select_older`. -/
def TaskList.select_older (tl : TaskList) : TaskList :=
  if tl.tasks.isEmpty then tl
  else
    match tl.selected with
    | some sel => { tl with selected := (checkedSub sel 1).orElse (fun _ => checkedSub tl.tasks.length 1) }
    | none => { tl with selected := checkedSub tl.tasks.length 1 }

/-- Rust `TaskList::select_end`. -/
def TaskList.select_end (tl : TaskList) : TaskList :=
  if tl.tasks.isEmpty then tl
  else { tl with selected := checkedSub tl.tasks.length 1 }

/-- Rust `TaskList::focus_by_index`: remove the task at `idx`, push it at the
end, select the last index. -/
def TaskList.focus_by_index (tl : TaskList) (idx : Nat) : TaskList :=
  if h : idx < tl.tasks.length then
    TaskList.select_end
      { tl with tasks := tl.tasks.eraseIdx idx ++ [tl.tasks.get ⟨idx, h⟩] }
  else tl

/-- Rust `TaskList::focus_by_selection`. -/
def TaskList.focus_by_selection (tl : TaskList) : TaskList :=
  match tl.selected with
  | some sel => tl.focus_by_index sel
  | none => tl

/-- Rust `TaskList::focus_by_wid` (`iter().position(...)`). -/
def TaskList.focus_by_wid (tl : TaskList) (wid : Nat) : TaskList :=
  match tl.tasks.findIdx? (fun task => task.wid == wid) with
  | some idx => tl.focus_by_index idx
  | none => tl

/-- Rust `TaskList::unfocus`. -/
def TaskList.unfocus (tl : TaskList) : TaskList :=
  { tl with selected := none }

/-- Rust `TaskList::new` (the empty registry). -/
def TaskList.empty : TaskList := ⟨[], none⟩

/-- One registry operation, as enumerated in the spec's invariant claim. -/
inductive RegistryOp where
  | diffUpdate (wids : List Nat)
  | updateTitle (wid : Nat) (title : String)
  | selectNewer
  | selectOlder
  | selectEnd
  | focusByIndex (idx : Nat)
  | focusBySelection
  | focusByWid (wid : Nat)
  | unfocus
deriving DecidableEq

/-- Interpretation of one registry operation. -/
def RegistryOp.apply (introspect : Nat → Option TaskInfo) (tl : TaskList) :
    RegistryOp → TaskList
  | .diffUpdate wids => tl.diff_update introspect wids
  | .updateTitle wid title => tl.update_title wid title
  | .selectNewer => tl.select_newer
  | .selectOlder => tl.select_older
  | .selectEnd => tl.select_end
  | .focusByIndex idx => tl.focus_by_index idx
  | .focusBySelection => tl.focus_by_selection
  | .focusByWid wid => tl.focus_by_wid wid
  | .unfocus => tl.unfocus

/-- Run a sequence of registry operations. -/
def runOps (introspect : Nat → Option TaskInfo) (tl : TaskList)
    (ops : List RegistryOp) : TaskList :=
  ops.foldl (RegistryOp.apply introspect) tl

/-- The registry invariant: no duplicate window ids, and the selection, if
present, is a valid index. -/
def TaskList.Inv (tl : TaskList) : Prop :=
  (tl.tasks.map Task.wid).Nodup ∧ ∀ s, tl.selected = some s → s < tl.tasks.length

/-! ### Example tasks used by the concrete scenarios -/

def task5 : Task := ⟨5, "five", ("inst5", "cls5")⟩

def task9 : Task := ⟨9, "nine", ("inst9", "cls9")⟩

/-- Rust `Area`: an axis-aligned float rectangle. -/
structure Area where
  x : ℚ
  y : ℚ
  w : ℚ
  h : ℚ
deriving DecidableEq

/-- Rust `Size`: a configured dimension, absolute pixels or a fraction of the
screen dimension. -/
inductive Size where
  | Absolute (n : Nat)
  | Relative (q : ℚ)
deriving DecidableEq

/-- Rust `Size::resolve`. -/
def Size.resolve : Size → ℚ → ℚ
  | .Absolute n, _ => (n : ℚ)
  | .Relative q, dim => q * dim

/-- Rust `WindowLocation`: the nine screen anchor points. -/
inductive WindowLocation where
  | NorthWest
  | North
  | NorthEast
  | West
  | Center
  | East
  | SouthWest
  | South
  | SouthEast
deriving DecidableEq

/-- Rust `WindowLocation::resolve`: anchor a `(aw, ah)` rectangle on a
`(bw, bh)` screen. -/
def WindowLocation.resolve (loc : WindowLocation) (a b : ℚ × ℚ) : ℚ × ℚ :=
  let aw := a.1
  let ah := a.2
  let bw := b.1
  let bh := b.2
  let half_aw := aw / 2
  let half_ah := ah / 2
  let half_bw := bw / 2
  let half_bh := bh / 2
  match loc with
  | .NorthWest => (0, 0)
  | .North => (half_bw - half_aw, 0)
  | .NorthEast => (bw - aw, 0)
  | .West => (0, half_bh - ah)
  | .Center => (half_bw - half_aw, half_bh - half_ah)
  | .East => (bw - aw, half_bh - ah)
  | .SouthWest => (0, bh - ah)
  | .South => (half_bw - half_aw, bh - ah)
  | .SouthEast => (bw - aw, bh - ah)

/-- The geometry-relevant fields of `Config` (the full struct also carries
colors, fonts and keybindings, which the layout engine never reads). -/
structure Config where
  width : ℚ
  height : ℚ
  task_width : Size
  task_height : Size
  border_width : ℚ
  location : WindowLocation
deriving DecidableEq

/-- The fields of the X11 `Screen` read by the layout engine. -/
structure Screen where
  width_in_pixels : Nat
  height_in_pixels : Nat
deriving DecidableEq

/-- Rust `compute_task_size` from `src/main.rs`. -/
def compute_task_size (conf : Config) (screen_size : ℚ) (task_size : Size)
    (tasks : Nat) : ℚ :=
  let bw := conf.border_width * 2
  let screen_size := screen_size - bw
  let task_size := task_size.resolve screen_size
  let content_h := task_size * (tasks : ℚ) + bw
  if content_h ≤ screen_size then task_size else (screen_size - bw) / (tasks : ℚ)

/-- Rust `compute_window_geometry_row` from `src/main.rs`. -/
def compute_window_geometry_row (conf : Config) (screen : Screen)
    (tasks : Nat) : Option Area :=
  if tasks = 0 then none
  else
    let screen_size : ℚ := (screen.height_in_pixels : ℚ)
    let task_h := compute_task_size conf screen_size conf.task_height tasks
    let w := conf.width
    let h := task_h * (tasks : ℚ)
    let screen_w : ℚ := (screen.width_in_pixels : ℚ)
    let screen_h : ℚ := (screen.height_in_pixels : ℚ)
    let xy := conf.location.resolve (w, h) (screen_w, screen_h)
    if w ≤ 0 ∨ h ≤ 0 then none
    else some ⟨xy.1, xy.2, w, h⟩

/-- The configuration of end-to-end scenario 5: per-task height 64 absolute,
border width 1, row layout anchored north-west. -/
def layoutConf : Config :=
  ⟨100, 100, Size.Absolute 64, Size.Absolute 64, 1, WindowLocation.NorthWest⟩

/-- A screen 150 pixels tall, as in end-to-end scenario 5. -/
def layoutScreen : Screen := ⟨500, 150⟩

/-- Rust `Frame`: owned pixel buffer.  `buf` is the byte vector of the source
viewed as `u32` pixels (little-endian BGRA). -/
structure Frame where
  width : Nat
  height : Nat
  buf : List Nat
deriving DecidableEq

/-- Rust `Frame::new`: zero-filled `width*height` pixel buffer. -/
def Frame.new (width height : Nat) : Frame :=
  ⟨width, height, List.replicate (width * height) 0⟩

/-- Rust `Frame::buf_u32`: the buffer viewed as exactly `width*height` pixels
(`slice::from_raw_parts(ptr, width*height)`). -/
def Frame.buf_u32 (f : Frame) : List Nat := f.buf.take (f.width * f.height)

/-- Rust `f32::round`: round half away from zero. -/
def roundf (q : ℚ) : Int := if 0 ≤ q then ⌊q + 1 / 2⌋ else ⌈q - 1 / 2⌉

/-- Run a fallible computation over a list, propagating a panic (`none`). -/
def traverseOpt {α β : Type} (f : α → Option β) : List α → Option (List β)
  | [] => some []
  | a :: l =>
    match f a, traverseOpt f l with
    | some b, some bs => some (b :: bs)
    | _, _ => none

/-- One entry of `x_map`/`y_map` in `Frame::scale_bilinear`: the two
bracketing source indices and the fractional weight.  `srcDim - 1` is the
`usize` subtraction `src_width - 1`; the out-of-bounds accesses a zero
`srcDim` provokes are caught by the `Option` indexing in `bilinearPixel`. -/
def bilinearMapEntry (srcDim dstDim i : Nat) : Nat × Nat × ℚ :=
  let src : ℚ := (i : ℚ) * ((srcDim - 1 : Nat) : ℚ) / (((dstDim - 1).max 1 : Nat) : ℚ)
  let i0 : Nat := (⌊src⌋).toNat
  let i1 : Nat := (i0 + 1).min (srcDim - 1)
  (i0, i1, src - (i0 : ℚ))

/-- Channel extraction `(p >> shift) & 0xFF`. -/
def channel (p shift : Nat) : Nat := p / 2 ^ shift % 256

/-- The per-channel closure `interp` of `Frame::scale_bilinear`
(`.round() as u32 & 0xFF`; the saturating `as u32` cast of a negative
value is `Int.toNat`). -/
def interpChannel (p00 p10 p01 p11 : Nat) (dx dy : ℚ) (shift : Nat) : Nat :=
  let c00 : ℚ := (channel p00 shift : ℚ)
  let c10 : ℚ := (channel p10 shift : ℚ)
  let c01 : ℚ := (channel p01 shift : ℚ)
  let c11 : ℚ := (channel p11 shift : ℚ)
  let c0 := c00 * (1 - dx) + c10 * dx
  let c1 := c01 * (1 - dx) + c11 * dx
  (roundf (c0 * (1 - dy) + c1 * dy)).toNat % 256

/-- Destination pixel assembly `(a << 24) | (r << 16) | (g << 8) | b`; the
four byte lanes are disjoint (every channel is `< 256`), so the bitwise
ors are written as additions. -/
def interpPixel (p00 p10 p01 p11 : Nat) (dx dy : ℚ) : Nat :=
  let b := interpChannel p00 p10 p01 p11 dx dy 0
  let g := interpChannel p00 p10 p01 p11 dx dy 8
  let r := interpChannel p00 p10 p01 p11 dx dy 16
  let a := interpChannel p00 p10 p01 p11 dx dy 24
  a * 2 ^ 24 + r * 2 ^ 16 + g * 2 ^ 8 + b

/-- One destination pixel of `Frame::scale_bilinear`: the four source
taps (`row0[x0]`, `row0[x1]`, `row1[x0]`, `row1[x1]`) and the separable
interpolation; `none` when an access is out of bounds (Rust panics). -/
def bilinearPixel (row0 row1 : List Nat) (dy : ℚ) (xe : Nat × Nat × ℚ) : Option Nat :=
  match row0.get? xe.1, row0.get? xe.2.1, row1.get? xe.1, row1.get? xe.2.1 with
  | some p00, some p10, some p01, some p11 =>
    some (interpPixel p00 p10 p01 p11 xe.2.2 dy)
  | _, _, _, _ => none

/-- One destination row of `Frame::scale_bilinear`: slice the two source
rows `src_buf[y0*w..(y0+1)*w]` / `src_buf[y1*w..(y1+1)*w]` and interpolate
every `x_map` entry. -/
def bilinearRow (src_buf : List Nat) (src_width dst_width : Nat)
    (ye : Nat × Nat × ℚ) : Option (List Nat) :=
  traverseOpt
    (bilinearPixel ((src_buf.drop (ye.1 * src_width)).take src_width)
      ((src_buf.drop (ye.2.1 * src_width)).take src_width) ye.2.2)
    ((List.range dst_width).map (bilinearMapEntry src_width dst_width))

/-- Rust `Frame::scale_bilinear`: destination size `round(src*factor).max(1)`,
then the separable interpolation over the precomputed `x_map`/`y_map`;
`none` exactly when the source indexing would panic. -/
def Frame.scale_bilinear (f : Frame) (factor : ℚ) : Option Frame :=
  let dst_width := ((roundf ((f.width : ℚ) * factor)).toNat).max 1
  let dst_height := ((roundf ((f.height : ℚ) * factor)).toNat).max 1
  match traverseOpt (bilinearRow f.buf_u32 f.width dst_width)
      ((List.range dst_height).map (bilinearMapEntry f.height dst_height)) with
  | some rows => some ⟨dst_width, dst_height, rows.flatten⟩
  | none => none

/-- The destination-buffer update loop of `Frame::blit_frame`: iterate the
source rows and columns, skip out-of-bounds destination coordinates, copy
the rest. -/
def blitBuf (dst frame : Frame) (x y : Int) : List Nat :=
  (List.range frame.height).foldl (fun (b : List Nat) (sy : Nat) =>
    if y + (sy : Int) < 0 ∨ (dst.height : Int) ≤ y + (sy : Int) then b
    else
      (List.range frame.width).foldl (fun (b : List Nat) (sx : Nat) =>
        if x + (sx : Int) < 0 ∨ (dst.width : Int) ≤ x + (sx : Int) then b
        else b.set ((y + (sy : Int)).toNat * dst.width + (x + (sx : Int)).toNat)
          (frame.buf_u32.getD (sy * frame.width + sx) 0)) b) dst.buf

/-- Rust `Frame::blit_frame`: opaque windowed copy with per-pixel clipping. -/
def Frame.blit_frame (dst frame : Frame) (x y : Int) : Frame :=
  { dst with buf := blitBuf dst frame x y }

/-- Rust `fontdue::Metrics` (external rasterizer library): glyph placement
metrics. -/
structure Metrics where
  xmin : Int
  ymin : Int
  width : Nat
  height : Nat
  advance_width : ℚ
  advance_height : ℚ
deriving DecidableEq

/-- Rust `RasterizedGlyph = (Metrics, Vec<u8>)`: metrics plus coverage bytes. -/
abbrev RasterizedGlyph := Metrics × List Nat

/-- Rust `RasterizedGlyph::default()`: the blank sentinel entry. -/
def RasterizedGlyph.blank : RasterizedGlyph := (⟨0, 0, 0, 0, 0, 0⟩, [])

/-- A loaded `fontdue::Font` (external collaborator): glyph lookup and
rasterization at a font size. -/
structure Font where
  has_glyph : Char → Bool
  rasterize : Char → ℚ → RasterizedGlyph

/-- Rust `char::is_ascii`: code point ≤ 0x7F. -/
def charIsAscii (c : Char) : Bool := c.toNat ≤ 127

/-- Rust `TextRenderer`: pre-rasterized Latin-1 table (256 entries), the lazy
overflow `HashMap` as a lookup function, priority-ordered fonts and the
fixed rasterization size. -/
structure TextRenderer where
  ascii : Fin 256 → RasterizedGlyph
  others : Char → Option RasterizedGlyph
  fonts : List Font
  size : ℚ

/-- Rust `TextRenderer::new`, given the already-loaded fonts: pre-rasterize all
256 Latin-1 code points against font index 0 (`none` when no font was
configured — `fonts[0]` panics). -/
def TextRenderer.new (fonts : List Font) (size : ℚ) : Option TextRenderer :=
  match fonts with
  | [] => none
  | font :: _ => some
    { ascii := fun i => font.rasterize (Char.ofNat i.val) size
      others := fun _ => none
      fonts := fonts
      size := size }

/-- Rust `TextRenderer::font_for_char`: first font in priority order with a
glyph for `c`. -/
def TextRenderer.font_for_char (tr : TextRenderer) (c : Char) : Option Font :=
  tr.fonts.find? (fun font => font.has_glyph c)

/-- Rust `TextRenderer::cache`: skip ASCII and already-memoized characters;
otherwise rasterize with the first font having the glyph, memoizing the
blank sentinel for an empty bitmap or when no font has the glyph. -/
def TextRenderer.cache (tr : TextRenderer) (c : Char) : TextRenderer :=
  if charIsAscii c then tr
  else if (tr.others c).isSome then tr
  else
    match tr.font_for_char c with
    | some font =>
      if (font.rasterize c tr.size).2.isEmpty then
        { tr with others := fun x => if x = c then some RasterizedGlyph.blank else tr.others x }
      else
        { tr with others := fun x => if x = c then some (font.rasterize c tr.size) else tr.others x }
    | none =>
      { tr with others := fun x => if x = c then some RasterizedGlyph.blank else tr.others x }

/-- Rust `TextRenderer::get`:
`self.ascii.get(c as usize).or_else(|| self.others.get(&c)).unwrap()` —
`none` models the `unwrap` panic. -/
def TextRenderer.get (tr : TextRenderer) (c : Char) : Option RasterizedGlyph :=
  (if h : c.toNat < 256 then some (tr.ascii ⟨c.toNat, h⟩) else none).orElse
    (fun _ => tr.others c)

/-- ASCII-only font: glyphs for code points < 128 only, coverage `[7]`. -/
def cxFont0 : Font := ⟨fun c => c.toNat < 128, fun _ _ => (⟨0, 0, 1, 1, 0, 0⟩, [7])⟩

/-- Full-coverage fallback font, coverage `[1, 2]`. -/
def cxFont1 : Font := ⟨fun _ => true, fun _ _ => (⟨0, 0, 2, 1, 0, 0⟩, [1, 2])⟩

/-- A renderer constructed by `TextRenderer.new` over the two example
fonts at size 16. -/
def cxTR : TextRenderer :=
  (TextRenderer.new [cxFont0, cxFont1] 16).getD
    { ascii := fun _ => RasterizedGlyph.blank
      others := fun _ => none
      fonts := []
      size := 16 }

/-! ### Theorems -/

theorem TaskList.untrack_tasks (tl : TaskList) (wid : Nat) :
    (tl.untrack wid).tasks = tl.tasks.filter (fun task => task.wid != wid) := rfl

theorem TaskList.untrack_selected_lt (tl : TaskList) (wid : Nat) :
    ∀ s, (tl.untrack wid).selected = some s → s < (tl.untrack wid).tasks.length := by
  intro s hs
  unfold TaskList.untrack at hs ⊢
  simp only [checkedSub] at hs ⊢
  cases hsel : tl.selected with
  | none => simp [hsel] at hs
  | some sel =>
    simp only [hsel] at hs
    split at hs
    · rename_i last hlast
      split at hlast
      · rename_i hle
        simp only [Option.some.injEq] at hlast hs
        omega
      · exact absurd hlast (by simp)
    · exact absurd hs (by simp)

theorem TaskList.untrack_nodup {tl : TaskList}
    (h : (tl.tasks.map Task.wid).Nodup) (wid : Nat) :
    ((tl.untrack wid).tasks.map Task.wid).Nodup := by
  rw [TaskList.untrack_tasks]
  exact ((tl.tasks.filter_sublist).map Task.wid).nodup h

theorem TaskList.untrack_inv {tl : TaskList} (h : tl.Inv) (wid : Nat) :
    (tl.untrack wid).Inv :=
  ⟨TaskList.untrack_nodup h.1 wid, tl.untrack_selected_lt wid⟩

theorem TaskList.track_selected (tl : TaskList) (task : Task) :
    (tl.track task).selected = tl.selected := by
  unfold TaskList.track
  split <;> rfl

theorem TaskList.track_length_le (tl : TaskList) (task : Task) :
    tl.tasks.length ≤ (tl.track task).tasks.length := by
  unfold TaskList.track
  split
  · exact le_refl _
  · simp

theorem TaskList.track_nodup {tl : TaskList}
    (h : (tl.tasks.map Task.wid).Nodup) (task : Task) :
    ((tl.track task).tasks.map Task.wid).Nodup := by
  unfold TaskList.track
  split
  · exact h
  · rename_i hna
    simp only [List.any_eq_true, beq_iff_eq, not_exists, not_and] at hna
    simp only [List.map_append, List.map_cons, List.map_nil]
    rw [List.nodup_append]
    refine ⟨h, List.nodup_singleton _, ?_⟩
    intro w hw hw1
    simp only [List.mem_singleton] at hw1
    obtain ⟨t, ht, rfl⟩ := List.mem_map.mp hw
    exact hna t ht hw1

theorem TaskList.track_inv {tl : TaskList} (h : tl.Inv) (task : Task) :
    (tl.track task).Inv := by
  refine ⟨TaskList.track_nodup h.1 task, ?_⟩
  intro s hs
  rw [TaskList.track_selected] at hs
  exact lt_of_lt_of_le (h.2 s hs) (tl.track_length_le task)

theorem TaskList.foldl_untrack_inv {tl : TaskList} (h : tl.Inv) (wids : List Nat) :
    (wids.foldl TaskList.untrack tl).Inv := by
  induction wids generalizing tl with
  | nil => exact h
  | cons w ws ih => exact ih (TaskList.untrack_inv h w)

theorem TaskList.foldl_track_inv {tl : TaskList} (h : tl.Inv) (ts : List Task) :
    (ts.foldl TaskList.track tl).Inv := by
  induction ts generalizing tl with
  | nil => exact h
  | cons t ts ih => exact ih (TaskList.track_inv h t)

theorem TaskList.diff_update_inv {tl : TaskList} (h : tl.Inv)
    (introspect : Nat → Option TaskInfo) (wids : List Nat) :
    (tl.diff_update introspect wids).Inv := by
  unfold TaskList.diff_update
  exact TaskList.foldl_track_inv (TaskList.foldl_untrack_inv h _) _

theorem TaskList.update_title_inv {tl : TaskList} (h : tl.Inv)
    (wid : Nat) (title : String) : (tl.update_title wid title).Inv := by
  have hmap : ∀ (l : List Task) (wid : Nat) (title : String),
      (updateTitleList l wid title).map Task.wid = l.map Task.wid := by
    intro l wid title
    induction l with
    | nil => rfl
    | cons t ts ih =>
      unfold updateTitleList
      split
      · rfl
      · simpa using ih
  have hlen : (tl.update_title wid title).tasks.length = tl.tasks.length := by
    have := congrArg List.length (hmap tl.tasks wid title)
    simpa [TaskList.update_title] using this
  refine ⟨?_, ?_⟩
  · show ((updateTitleList tl.tasks wid title).map Task.wid).Nodup
    rw [hmap]
    exact h.1
  · intro s hs
    rw [hlen]
    exact h.2 s hs

theorem length_pos_of_not_isEmpty {l : List Task} (h : ¬l.isEmpty = true) :
    0 < l.length := by
  cases l with
  | nil => simp at h
  | cons a t => simp

theorem TaskList.select_newer_inv {tl : TaskList} (h : tl.Inv) :
    tl.select_newer.Inv := by
  unfold TaskList.select_newer
  split
  · exact h
  · rename_i hne
    have hpos : 0 < tl.tasks.length := length_pos_of_not_isEmpty hne
    split
    · refine ⟨h.1, ?_⟩
      intro s hs
      simp only [Option.some.injEq] at hs
      subst hs
      exact Nat.mod_lt _ hpos
    · refine ⟨h.1, ?_⟩
      intro s hs
      simp only [checkedSub] at hs
      split at hs
      · simp only [Option.some.injEq] at hs
        show s < tl.tasks.length
        omega
      · exact absurd hs (by simp)

theorem TaskList.select_older_inv {tl : TaskList} (h : tl.Inv) :
    tl.select_older.Inv := by
  unfold TaskList.select_older
  split
  · exact h
  · rename_i hne
    have hpos : 0 < tl.tasks.length := length_pos_of_not_isEmpty hne
    split
    · rename_i sel hsel
      refine ⟨h.1, ?_⟩
      intro s hs
      have hsellt : sel < tl.tasks.length := h.2 sel hsel
      show s < tl.tasks.length
      have hs2 : (checkedSub sel 1).orElse (fun _ => checkedSub tl.tasks.length 1)
          = some s := hs
      unfold checkedSub at hs2
      by_cases h1 : 1 ≤ sel
      · rw [if_pos h1] at hs2
        simp only [Option.orElse, Option.some.injEq] at hs2
        omega
      · rw [if_neg h1] at hs2
        simp only [Option.orElse, if_pos (show 1 ≤ tl.tasks.length from hpos),
          Option.some.injEq] at hs2
        omega
    · refine ⟨h.1, ?_⟩
      intro s hs
      simp only [checkedSub] at hs
      split at hs
      · simp only [Option.some.injEq] at hs
        show s < tl.tasks.length
        omega
      · exact absurd hs (by simp)

theorem TaskList.select_end_inv {tl : TaskList} (h : tl.Inv) :
    tl.select_end.Inv := by
  unfold TaskList.select_end
  split
  · exact h
  · rename_i hne
    have hpos : 0 < tl.tasks.length := length_pos_of_not_isEmpty hne
    refine ⟨h.1, ?_⟩
    intro s hs
    simp only [checkedSub] at hs
    split at hs
    · simp only [Option.some.injEq] at hs
      show s < tl.tasks.length
      omega
    · exact absurd hs (by simp)

theorem eraseIdx_append_get_perm (l : List Task) (i : Nat) (h : i < l.length) :
    (l.eraseIdx i ++ [l.get ⟨i, h⟩]).Perm l := by
  conv_rhs => rw [← List.take_append_drop i l]
  rw [List.eraseIdx_eq_take_drop_succ, List.append_assoc]
  refine List.Perm.append_left _ ?_
  rw [List.drop_eq_getElem_cons h, List.get_eq_getElem]
  exact List.perm_append_singleton _ _

theorem TaskList.focus_by_index_inv {tl : TaskList} (h : tl.Inv) (idx : Nat) :
    (tl.focus_by_index idx).Inv := by
  unfold TaskList.focus_by_index
  split
  · rename_i hlt
    apply TaskList.select_end_inv
    have hperm := (eraseIdx_append_get_perm tl.tasks idx hlt).map Task.wid
    refine ⟨hperm.symm.nodup h.1, ?_⟩
    intro s hs
    have hl := h.2 s hs
    have hlen := (eraseIdx_append_get_perm tl.tasks idx hlt).length_eq
    show s < (tl.tasks.eraseIdx idx ++ [tl.tasks.get ⟨idx, hlt⟩]).length
    omega
  · exact h

theorem TaskList.focus_by_selection_inv {tl : TaskList} (h : tl.Inv) :
    tl.focus_by_selection.Inv := by
  unfold TaskList.focus_by_selection
  split
  · exact TaskList.focus_by_index_inv h _
  · exact h

theorem TaskList.focus_by_wid_inv {tl : TaskList} (h : tl.Inv) (wid : Nat) :
    (tl.focus_by_wid wid).Inv := by
  unfold TaskList.focus_by_wid
  split
  · exact TaskList.focus_by_index_inv h _
  · exact h

theorem TaskList.unfocus_inv {tl : TaskList} (h : tl.Inv) : tl.unfocus.Inv := by
  refine ⟨h.1, ?_⟩
  intro s hs
  simp [TaskList.unfocus] at hs

theorem RegistryOp.apply_inv {tl : TaskList} (h : tl.Inv)
    (introspect : Nat → Option TaskInfo) (op : RegistryOp) :
    (op.apply introspect tl).Inv := by
  cases op with
  | diffUpdate wids => exact TaskList.diff_update_inv h introspect wids
  | updateTitle wid title => exact TaskList.update_title_inv h wid title
  | selectNewer => exact TaskList.select_newer_inv h
  | selectOlder => exact TaskList.select_older_inv h
  | selectEnd => exact TaskList.select_end_inv h
  | focusByIndex idx => exact TaskList.focus_by_index_inv h idx
  | focusBySelection => exact TaskList.focus_by_selection_inv h
  | focusByWid wid => exact TaskList.focus_by_wid_inv h wid
  | unfocus => exact TaskList.unfocus_inv h

theorem runOps_inv {tl : TaskList} (h : tl.Inv)
    (introspect : Nat → Option TaskInfo) (ops : List RegistryOp) :
    (runOps introspect tl ops).Inv := by
  induction ops generalizing tl with
  | nil => exact h
  | cons op ops ih => exact ih (RegistryOp.apply_inv h introspect op)

/-- Claim C3: starting from the empty registry, after every finite sequence
of `diff_update`, `update_title`, `select_newer`, `select_older`,
`select_end`, `focus_by_index`, `focus_by_selection`, `focus_by_wid` and
`unfocus` operations, the `TaskList` contains no two tasks with the same
window identifier, and the selection is either absent or an index strictly
less than the current length. -/
theorem registry_invariant_all_sequences
    (introspect : Nat → Option TaskInfo) (ops : List RegistryOp) :
    (runOps introspect TaskList.empty ops).Inv :=
  runOps_inv ⟨by simp [TaskList.empty], by intro s hs; simp [TaskList.empty] at hs⟩
    introspect ops

/-! ### Cyclic selection, focus commit, clamping -/

theorem TaskList.select_older_tasks (tl : TaskList) :
    tl.select_older.tasks = tl.tasks := by
  unfold TaskList.select_older
  split
  · rfl
  · split <;> rfl

/-- Claim C4: on a `TaskList` of length ≥ 1 with a defined (valid)
selection, `select_older` followed by `select_newer` (the code's
next/previous pair) restores the original selection index; when exactly one
task is tracked each of the two operations individually leaves the
selection unchanged. -/
theorem select_older_newer_roundtrip (tl : TaskList) (s : Nat)
    (h1 : tl.selected = some s) (h2 : s < tl.tasks.length) :
    tl.select_older.select_newer.selected = some s ∧
    (tl.tasks.length = 1 →
      tl.select_older.selected = tl.selected ∧
      tl.select_newer.selected = tl.selected) := by
  have hpos : 0 < tl.tasks.length := lt_of_le_of_lt (Nat.zero_le s) h2
  have hne : tl.tasks.isEmpty = false := by
    cases htl : tl.tasks with
    | nil => rw [htl] at hpos; simp at hpos
    | cons a t => rfl
  have holder : tl.select_older =
      { tl with selected := some (if s = 0 then tl.tasks.length - 1 else s - 1) } := by
    unfold TaskList.select_older
    rw [hne, h1]
    by_cases hs0 : s = 0
    · subst hs0
      simp [checkedSub, Option.orElse, Nat.one_le_iff_ne_zero.mpr (Nat.pos_iff_ne_zero.mp hpos)]
    · simp [checkedSub, Option.orElse, Nat.one_le_iff_ne_zero.mpr hs0, hs0]
  have hnewer : ∀ t : TaskList, t.tasks = tl.tasks → ∀ k : Nat, t.selected = some k →
      t.select_newer.selected = some ((k + 1) % tl.tasks.length) := by
    intro t ht k hk
    unfold TaskList.select_newer
    rw [ht, hne, hk]
    simp
  refine ⟨?_, ?_⟩
  · rw [holder]
    rw [hnewer { tl with selected := some (if s = 0 then tl.tasks.length - 1 else s - 1) } rfl
      (if s = 0 then tl.tasks.length - 1 else s - 1) rfl]
    by_cases hs0 : s = 0
    · rw [if_pos hs0, Nat.sub_add_cancel hpos, Nat.mod_self, hs0]
    · rw [if_neg hs0, Nat.sub_add_cancel (Nat.one_le_iff_ne_zero.mpr hs0),
        Nat.mod_eq_of_lt h2]
  · intro hlen1
    have hs0 : s = 0 := by omega
    constructor
    · rw [holder, h1, hs0, if_pos rfl, hlen1]
    · rw [hnewer tl rfl s h1, h1, hs0, hlen1]

theorem select_older_newer_roundtrip_witness :
    ((⟨[task5, task9], some 1⟩ : TaskList).select_older.select_newer).selected = some 1 :=
  (select_older_newer_roundtrip ⟨[task5, task9], some 1⟩ 1 rfl (by decide)).1

/-- Claim C5: with a defined valid selection `s`, `focus_by_selection`
removes exactly the task at index `s` and re-appends it at the end
(preserving the relative order of the others), keeps the multiset of
tracked window ids, and selects the new last index. -/
theorem focus_by_selection_spec (tl : TaskList) (s : Nat)
    (h1 : tl.selected = some s) (h2 : s < tl.tasks.length) :
    tl.focus_by_selection.tasks = tl.tasks.eraseIdx s ++ [tl.tasks.get ⟨s, h2⟩] ∧
    tl.focus_by_selection.selected = some (tl.tasks.length - 1) ∧
    (tl.focus_by_selection.tasks.map Task.wid).Perm (tl.tasks.map Task.wid) := by
  have hfb : tl.focus_by_selection = tl.focus_by_index s := by
    unfold TaskList.focus_by_selection
    rw [h1]
  have hlen := (eraseIdx_append_get_perm tl.tasks s h2).length_eq
  have hne : (tl.tasks.eraseIdx s ++ [tl.tasks.get ⟨s, h2⟩]).isEmpty = false := by
    cases he : tl.tasks.eraseIdx s ++ [tl.tasks.get ⟨s, h2⟩] with
    | nil => simp at he
    | cons a t => rfl
  rw [hfb]
  unfold TaskList.focus_by_index
  rw [dif_pos h2]
  unfold TaskList.select_end
  rw [hne]
  refine ⟨rfl, ?_, ?_⟩
  · show checkedSub (tl.tasks.eraseIdx s ++ [tl.tasks.get ⟨s, h2⟩]).length 1
        = some (tl.tasks.length - 1)
    rw [hlen, checkedSub, if_pos (by omega)]
  · exact (eraseIdx_append_get_perm tl.tasks s h2).map Task.wid

theorem focus_by_selection_witness :
    (⟨[task9, task5], some 0⟩ : TaskList).focus_by_selection.tasks = [task5, task9] ∧
    (⟨[task9, task5], some 0⟩ : TaskList).focus_by_selection.selected = some 1 := by
  have h := focus_by_selection_spec ⟨[task9, task5], some 0⟩ 0 rfl (by decide)
  exact ⟨h.1.trans (by decide), h.2.1⟩

/-- Claim C7: after removal, a selection index exceeding the new last valid
index is clamped to the new last index, and the selection is cleared when
the registry becomes empty; in particular reconciling `[task5, task9]`
(selection on index 1) against the id set `[5]` leaves `[task5]` with the
selection clamped to index 0. -/
theorem untrack_clamps_selection :
    (∀ (tl : TaskList) (wid s : Nat), tl.selected = some s →
      ((tl.untrack wid).tasks.length = 0 → (tl.untrack wid).selected = none) ∧
      (0 < (tl.untrack wid).tasks.length → (tl.untrack wid).tasks.length - 1 < s →
        (tl.untrack wid).selected = some ((tl.untrack wid).tasks.length - 1))) ∧
    (∀ introspect : Nat → Option TaskInfo,
      TaskList.diff_update introspect ⟨[task5, task9], some 1⟩ [5] = ⟨[task5], some 0⟩) := by
  constructor
  · intro tl wid s hsel
    have htasks : (tl.untrack wid).tasks
        = tl.tasks.filter (fun task => task.wid != wid) := rfl
    have hselected : (tl.untrack wid).selected
        = match checkedSub (tl.tasks.filter (fun task => task.wid != wid)).length 1 with
          | some last => some (min s last)
          | none => none := by
      show (match tl.selected with
        | some sel =>
          match checkedSub (tl.tasks.filter (fun (task : Task) => task.wid != wid)).length 1 with
          | some last => some (min sel last)
          | none => none
        | none => none) = _
      rw [hsel]
    constructor
    · intro hlen0
      rw [htasks] at hlen0
      rw [hselected, checkedSub, if_neg (by omega)]
    · intro hpos hgt
      rw [htasks] at hpos hgt
      rw [hselected, checkedSub, if_pos (by omega), htasks]
      have hmin : min s ((tl.tasks.filter (fun (task : Task) => task.wid != wid)).length - 1)
          = (tl.tasks.filter (fun (task : Task) => task.wid != wid)).length - 1 := by omega
      show some (min s ((tl.tasks.filter (fun (task : Task) => task.wid != wid)).length - 1)) = _
      rw [hmin]
  · intro introspect
    rfl

theorem untrack_clamps_selection_witness :
    ((⟨[task5, task9], some 1⟩ : TaskList).untrack 9).selected = some 0 ∧
    TaskList.diff_update (fun _ => none) ⟨[task5, task9], some 1⟩ [5]
      = ⟨[task5], some 0⟩ := by
  constructor
  · have h := (untrack_clamps_selection.1 ⟨[task5, task9], some 1⟩ 9 1 rfl).2
    exact (h (by decide) (by decide)).trans (by decide)
  · exact untrack_clamps_selection.2 (fun _ => none)

/-! ### Reconciliation idempotence -/

theorem TaskList.diff_update_eq (introspect : Nat → Option TaskInfo)
    (tl : TaskList) (wids : List Nat) :
    tl.diff_update introspect wids =
      ((wids.filter (fun wid =>
          !((((tl.tasks.filter (fun task => !(wids.contains task.wid))).map Task.wid).foldl
              TaskList.untrack tl).containsWid wid))).filterMap
        (fun wid => (introspect wid).map (fun info => Task.mk wid info.title info.cls))).foldl
        TaskList.track
        (((tl.tasks.filter (fun task => !(wids.contains task.wid))).map Task.wid).foldl
          TaskList.untrack tl) := rfl

theorem TaskList.foldl_untrack_mem {tl : TaskList} {t : Task} {ws : List Nat}
    (h : t ∈ (ws.foldl TaskList.untrack tl).tasks) : t ∈ tl.tasks := by
  induction ws generalizing tl with
  | nil => exact h
  | cons w ws ih =>
    have h2 := ih h
    rw [TaskList.untrack_tasks] at h2
    exact List.mem_of_mem_filter h2

theorem TaskList.foldl_untrack_wid_ne (ws : List Nat) :
    ∀ {tl : TaskList} {t : Task} {w : Nat}, w ∈ ws →
      t ∈ (ws.foldl TaskList.untrack tl).tasks → t.wid ≠ w := by
  induction ws with
  | nil =>
    intro tl t w hw
    simp at hw
  | cons w0 ws ih =>
    intro tl t w hw h
    rw [List.foldl_cons] at h
    rcases List.mem_cons.mp hw with rfl | hw2
    · have h2 := TaskList.foldl_untrack_mem h
      rw [TaskList.untrack_tasks] at h2
      have h3 := List.of_mem_filter h2
      simpa using h3
    · exact ih hw2 h

theorem TaskList.track_tasks_sub (tl : TaskList) (task : Task) :
    ∀ t ∈ (tl.track task).tasks, t ∈ tl.tasks ∨ t = task := by
  unfold TaskList.track
  split
  · intro t ht
    exact Or.inl ht
  · intro t ht
    rcases List.mem_append.mp ht with h | h
    · exact Or.inl h
    · simp only [List.mem_singleton] at h
      exact Or.inr h

theorem TaskList.foldl_track_mem (ts : List Task) :
    ∀ {tl : TaskList} {t : Task}, t ∈ (ts.foldl TaskList.track tl).tasks →
      t ∈ tl.tasks ∨ t ∈ ts := by
  induction ts with
  | nil =>
    intro tl t h
    exact Or.inl h
  | cons t0 ts ih =>
    intro tl t h
    rw [List.foldl_cons] at h
    rcases ih h with h2 | h2
    · rcases TaskList.track_tasks_sub tl t0 t h2 with h3 | h3
      · exact Or.inl h3
      · exact Or.inr (by simp [h3])
    · exact Or.inr (List.mem_cons_of_mem _ h2)

theorem TaskList.track_contains_mono {tl : TaskList} {w : Nat}
    (h : tl.containsWid w = true) (task : Task) :
    (tl.track task).containsWid w = true := by
  unfold TaskList.track
  split
  · exact h
  · show (tl.tasks ++ [task]).any (fun task => task.wid == w) = true
    rw [List.any_append]
    unfold TaskList.containsWid at h
    rw [h]
    rfl

theorem TaskList.foldl_track_contains_mono (ts : List Task) :
    ∀ {tl : TaskList} {w : Nat}, tl.containsWid w = true →
      (ts.foldl TaskList.track tl).containsWid w = true := by
  induction ts with
  | nil =>
    intro tl w h
    exact h
  | cons t0 ts ih =>
    intro tl w h
    exact ih (TaskList.track_contains_mono h t0)

theorem TaskList.track_contains_self (tl : TaskList) (task : Task) :
    (tl.track task).containsWid task.wid = true := by
  unfold TaskList.track
  split
  · rename_i hc
    exact hc
  · show (tl.tasks ++ [task]).any (fun t => t.wid == task.wid) = true
    rw [List.any_append]
    simp

theorem TaskList.foldl_track_contains_of_mem (ts : List Task) :
    ∀ {tl : TaskList} {t : Task}, t ∈ ts →
      (ts.foldl TaskList.track tl).containsWid t.wid = true := by
  induction ts with
  | nil =>
    intro tl t h
    simp at h
  | cons t0 ts ih =>
    intro tl t h
    rw [List.foldl_cons]
    rcases List.mem_cons.mp h with rfl | h2
    · exact TaskList.foldl_track_contains_mono ts (TaskList.track_contains_self tl t)
    · exact ih h2

theorem TaskList.diff_update_wid_mem (introspect : Nat → Option TaskInfo)
    (tl : TaskList) (wids : List Nat) :
    ∀ t ∈ (tl.diff_update introspect wids).tasks, wids.contains t.wid = true := by
  intro t ht
  rw [TaskList.diff_update_eq] at ht
  by_contra hc
  rw [Bool.not_eq_true] at hc
  rcases TaskList.foldl_track_mem _ ht with h2 | h2
  · have hmem := TaskList.foldl_untrack_mem h2
    have hfilter : t ∈ tl.tasks.filter (fun task => !(wids.contains task.wid)) :=
      List.mem_filter.mpr ⟨hmem, by rw [hc]; rfl⟩
    have hwid : t.wid ∈ (tl.tasks.filter (fun task => !(wids.contains task.wid))).map Task.wid :=
      List.mem_map.mpr ⟨t, hfilter, rfl⟩
    exact TaskList.foldl_untrack_wid_ne _ hwid h2 rfl
  · rcases List.mem_filterMap.mp h2 with ⟨w, hw, hmap⟩
    rcases Option.map_eq_some'.mp hmap with ⟨info, hintro, rfl⟩
    have hwin : w ∈ wids := (List.mem_filter.mp hw).1
    simp at hc
    exact hc hwin

theorem TaskList.diff_update_introspect_none (introspect : Nat → Option TaskInfo)
    (tl : TaskList) (wids : List Nat) :
    ∀ w ∈ wids, (tl.diff_update introspect wids).containsWid w = false →
      introspect w = none := by
  intro w hw hc
  by_contra hi
  rcases Option.ne_none_iff_exists'.mp hi with ⟨info, hinfo⟩
  rw [TaskList.diff_update_eq] at hc
  set tlU := ((tl.tasks.filter (fun task => !(wids.contains task.wid))).map Task.wid).foldl
    TaskList.untrack tl with htlU
  by_cases hcu : tlU.containsWid w = true
  · have hmono := TaskList.foldl_track_contains_mono
      ((wids.filter (fun wid => !(tlU.containsWid wid))).filterMap
        (fun wid => (introspect wid).map (fun info => Task.mk wid info.title info.cls))) hcu
    rw [hmono] at hc
    cases hc
  · have hwmem : w ∈ wids.filter (fun wid => !(tlU.containsWid wid)) :=
      List.mem_filter.mpr ⟨hw, by simp only [Bool.not_eq_true] at hcu; simp [hcu]⟩
    have htmem : Task.mk w info.title info.cls ∈
        (wids.filter (fun wid => !(tlU.containsWid wid))).filterMap
          (fun wid => (introspect wid).map (fun info => Task.mk wid info.title info.cls)) :=
      List.mem_filterMap.mpr ⟨w, hwmem, by rw [hinfo]; rfl⟩
    have hself := @TaskList.foldl_track_contains_of_mem _ tlU _ htmem
    rw [show (Task.mk w info.title info.cls).wid = w from rfl] at hself
    rw [hself] at hc
    cases hc

/-- Claim C6: reconciliation is idempotent — with a fixed deterministic
introspection function, applying `diff_update` twice with the same id list
yields exactly the same registry state (tasks, order and selection) as
applying it once. -/
theorem diff_update_idempotent (introspect : Nat → Option TaskInfo)
    (tl : TaskList) (wids : List Nat) :
    TaskList.diff_update introspect (TaskList.diff_update introspect tl wids) wids
      = TaskList.diff_update introspect tl wids := by
  have hA := TaskList.diff_update_wid_mem introspect tl wids
  have hD := TaskList.diff_update_introspect_none introspect tl wids
  set tl1 := TaskList.diff_update introspect tl wids with htl1
  rw [TaskList.diff_update_eq introspect tl1 wids]
  have hB : tl1.tasks.filter (fun task => !(wids.contains task.wid)) = [] := by
    rw [List.filter_eq_nil_iff]
    intro t ht
    rw [hA t ht]
    simp
  rw [hB]
  simp only [List.map_nil, List.foldl_nil]
  have hFM : (wids.filter (fun wid => !(tl1.containsWid wid))).filterMap
      (fun wid => (introspect wid).map (fun info => Task.mk wid info.title info.cls)) = [] := by
    rw [List.filterMap_eq_nil_iff]
    intro w hw
    rcases List.mem_filter.mp hw with ⟨hw1, hw2⟩
    rw [hD w hw1 (by simpa using hw2)]
    rfl
  rw [hFM]
  rfl

/-! ### Layout / geometry engine

`f32` values are modelled over `ℚ`.  On the concrete inputs of the layout
claim every `f32` operation except the final division is exact (all values
are small integers), and the final divisions `146/3 ≈ 48.67` and
`148/3 ≈ 49.33` round to different `f32` values, so equality and
inequality over `ℚ` agree with the `f32` run. -/

/-- Claim C1 (counterexample): with 3 tasks, absolute per-task height 64,
screen height 150 and border width 1, `compute_task_size` does NOT shrink
the per-task height to `(150 - 2)/3` as the spec states. -/
theorem compute_task_size_scenario5_counterexample :
    compute_task_size layoutConf 150 (Size.Absolute 64) 3 ≠ (150 - 2) / 3 := by
  norm_num [compute_task_size, Size.resolve, layoutConf]

/-- Claim C1 (amended): in that scenario the per-task height shrinks
uniformly to `(150 - 2 - 2)/3 = 146/3` — the doubled border width is
subtracted from the screen extent twice, once when computing the available
extent and once more in the shrink branch — so the row-list geometry is
146 pixels tall, strictly inside the 148 available pixels rather than
filling them exactly. -/
theorem compute_task_size_scenario5_shrink :
    compute_task_size layoutConf 150 (Size.Absolute 64) 3 = (150 - 2 - 2) / 3 ∧
    compute_window_geometry_row layoutConf layoutScreen 3 = some ⟨0, 0, 100, 146⟩ := by
  constructor
  · norm_num [compute_task_size, Size.resolve, layoutConf]
  · norm_num [compute_window_geometry_row, compute_task_size, Size.resolve,
      WindowLocation.resolve, layoutConf, layoutScreen, Area.mk.injEq]

/-! ### Framebuffer: blit and bilinear resample

Pixels are the `u32` values of the source's `buf_u32` view; `f32`
arithmetic inside the resampler is modelled over `ℚ` (for a uniform-colour
source the interpolation weights cancel exactly, and the tiny `f32`
rounding residue of `c*(1-d)+c*d` is absorbed by the final `.round()`, so
the `ℚ` model and the `f32` run produce the same integer channels).
Panicking slice indexing is modelled with `Option`. -/

theorem foldl_fixed {α β : Type} {l : List α} {f : β → α → β} {b : β}
    (h : ∀ x ∈ l, ∀ c, f c x = c) : l.foldl f b = b := by
  induction l generalizing b with
  | nil => rfl
  | cons a l ih =>
    rw [List.foldl_cons, h a (by simp) b]
    exact ih (fun x hx c => h x (by simp [hx]) c)

/-- Claim C9: when the source lies fully outside the destination bounds in
any one direction (`x ≤ -src_width`, `x ≥ dst_width`, `y ≤ -src_height` or
`y ≥ dst_height`), `blit_frame` leaves the destination unchanged. -/
theorem blit_frame_outside_noop (dst frame : Frame) (x y : Int)
    (h : x ≤ -(frame.width : Int) ∨ (dst.width : Int) ≤ x ∨
         y ≤ -(frame.height : Int) ∨ (dst.height : Int) ≤ y) :
    dst.blit_frame frame x y = dst := by
  have hbuf : blitBuf dst frame x y = dst.buf := by
    unfold blitBuf
    apply foldl_fixed
    intro sy hsy b
    simp only [List.mem_range] at hsy
    by_cases hguard : y + (sy : Int) < 0 ∨ (dst.height : Int) ≤ y + (sy : Int)
    · rw [if_pos hguard]
    · rw [if_neg hguard]
      apply foldl_fixed
      intro sx hsx c
      simp only [List.mem_range] at hsx
      have hxcase : x + (sx : Int) < 0 ∨ (dst.width : Int) ≤ x + (sx : Int) := by
        rcases h with hx | hx | hy | hy
        · left
          omega
        · right
          omega
        · exact absurd (Or.inl (by omega)) hguard
        · exact absurd (Or.inr (by omega)) hguard
      rw [if_pos hxcase]
  show ({ dst with buf := blitBuf dst frame x y } : Frame) = dst
  rw [hbuf]

theorem blit_frame_outside_noop_witness :
    (⟨2, 2, [1, 2, 3, 4]⟩ : Frame).blit_frame ⟨1, 1, [9]⟩ 5 0
      = ⟨2, 2, [1, 2, 3, 4]⟩ :=
  blit_frame_outside_noop ⟨2, 2, [1, 2, 3, 4]⟩ ⟨1, 1, [9]⟩ 5 0
    (Or.inr (Or.inl (by decide)))

/-! ### Bilinear resample lemmas -/

theorem traverseOpt_eq_map {α β : Type} {f : α → Option β} {g : α → β} :
    ∀ {l : List α}, (∀ a ∈ l, f a = some (g a)) → traverseOpt f l = some (l.map g) := by
  intro l
  induction l with
  | nil =>
    intro _
    rfl
  | cons a l ih =>
    intro h
    have ha := h a (by simp)
    have hl := ih (fun x hx => h x (by simp [hx]))
    unfold traverseOpt
    rw [ha, hl]
    rfl

theorem traverseOpt_isSome {α β : Type} {f : α → Option β} :
    ∀ {l : List α}, (∀ a ∈ l, (f a).isSome = true) →
      (traverseOpt f l).isSome = true := by
  intro l
  induction l with
  | nil =>
    intro _
    rfl
  | cons a l ih =>
    intro h
    rcases Option.isSome_iff_exists.mp (h a (by simp)) with ⟨b, hb⟩
    rcases Option.isSome_iff_exists.mp (ih (fun x hx => h x (by simp [hx]))) with ⟨bs, hbs⟩
    unfold traverseOpt
    rw [hb, hbs]
    rfl

theorem traverseOpt_cons_none {α β : Type} {f : α → Option β} {a : α} {l : List α}
    (h : f a = none) : traverseOpt f (a :: l) = none := by
  unfold traverseOpt
  rw [h]

theorem roundf_natCast (n : Nat) : roundf (n : ℚ) = (n : Int) := by
  unfold roundf
  rw [if_pos (by positivity)]
  rw [show ((n : ℚ) + 1 / 2) = (1 / 2 : ℚ) + ((n : Int) : ℚ) by push_cast; ring]
  rw [Int.floor_add_int]
  norm_num

theorem interpChannel_const (c : Nat) (dx dy : ℚ) (shift : Nat) :
    interpChannel c c c c dx dy shift = channel c shift := by
  show (roundf (((channel c shift : ℚ) * (1 - dx) + (channel c shift : ℚ) * dx) * (1 - dy)
      + ((channel c shift : ℚ) * (1 - dx) + (channel c shift : ℚ) * dx) * dy)).toNat % 256
    = channel c shift
  rw [show ((channel c shift : ℚ) * (1 - dx) + (channel c shift : ℚ) * dx) * (1 - dy)
      + ((channel c shift : ℚ) * (1 - dx) + (channel c shift : ℚ) * dx) * dy
      = ((channel c shift : Nat) : ℚ) by ring]
  rw [roundf_natCast, Int.toNat_natCast]
  exact Nat.mod_eq_of_lt (Nat.mod_lt _ (by norm_num))

theorem interpPixel_const {c : Nat} (hc : c < 2 ^ 32) (dx dy : ℚ) :
    interpPixel c c c c dx dy = c := by
  show interpChannel c c c c dx dy 24 * 2 ^ 24 + interpChannel c c c c dx dy 16 * 2 ^ 16
      + interpChannel c c c c dx dy 8 * 2 ^ 8 + interpChannel c c c c dx dy 0 = c
  rw [interpChannel_const, interpChannel_const, interpChannel_const, interpChannel_const]
  unfold channel
  rw [show (2 : Nat) ^ 32 = 4294967296 from by norm_num] at hc
  rw [show (2 : Nat) ^ 24 = 16777216 from by norm_num,
    show (2 : Nat) ^ 16 = 65536 from by norm_num,
    show (2 : Nat) ^ 8 = 256 from by norm_num,
    show (2 : Nat) ^ 0 = 1 from by norm_num]
  omega

theorem bilinearMapEntry_fst (srcDim dstDim i : Nat) :
    (bilinearMapEntry srcDim dstDim i).1
      = (⌊(i : ℚ) * ((srcDim - 1 : Nat) : ℚ) / (((dstDim - 1).max 1 : Nat) : ℚ)⌋).toNat := rfl

theorem bilinearMapEntry_snd (srcDim dstDim i : Nat) :
    (bilinearMapEntry srcDim dstDim i).2.1
      = ((bilinearMapEntry srcDim dstDim i).1 + 1).min (srcDim - 1) := rfl

theorem bilinearMapEntry_fst_le {srcDim dstDim i : Nat} (hi : i < dstDim) :
    (bilinearMapEntry srcDim dstDim i).1 ≤ srcDim - 1 := by
  rw [bilinearMapEntry_fst]
  have hDpos : (0 : ℚ) < (((dstDim - 1).max 1 : Nat) : ℚ) := by
    have h1 : 1 ≤ (dstDim - 1).max 1 := Nat.le_max_right _ _
    exact_mod_cast Nat.lt_of_lt_of_le Nat.zero_lt_one h1
  have hiD : (i : ℚ) ≤ (((dstDim - 1).max 1 : Nat) : ℚ) := by
    have h2 : i ≤ (dstDim - 1).max 1 :=
      le_trans (by omega) (Nat.le_max_left (dstDim - 1) 1)
    exact_mod_cast h2
  have hS : (0 : ℚ) ≤ ((srcDim - 1 : Nat) : ℚ) := by positivity
  have hsrc : (i : ℚ) * ((srcDim - 1 : Nat) : ℚ) / (((dstDim - 1).max 1 : Nat) : ℚ)
      ≤ ((srcDim - 1 : Nat) : ℚ) := by
    rw [div_le_iff₀ hDpos]
    nlinarith
  have hfl : ⌊(i : ℚ) * ((srcDim - 1 : Nat) : ℚ) / (((dstDim - 1).max 1 : Nat) : ℚ)⌋
      ≤ ((srcDim - 1 : Nat) : Int) := by
    have := Int.floor_le_floor hsrc
    rwa [Int.floor_natCast] at this
  have := Int.toNat_le_toNat hfl
  rwa [Int.toNat_natCast] at this

theorem bilinearMapEntry_snd_le (srcDim dstDim i : Nat) :
    (bilinearMapEntry srcDim dstDim i).2.1 ≤ srcDim - 1 := by
  rw [bilinearMapEntry_snd]
  exact Nat.min_le_right _ _

theorem row_length {buf : List Nat} {w h k : Nat} (hlen : buf.length = w * h)
    (hh : 1 ≤ h) (hk : k ≤ h - 1) :
    ((buf.drop (k * w)).take w).length = w := by
  rw [List.length_take, List.length_drop, hlen]
  have hmul : (k + 1) * w ≤ h * w := Nat.mul_le_mul_right w (by omega)
  rw [Nat.succ_mul] at hmul
  have hcomm : w * h = h * w := Nat.mul_comm w h
  omega

theorem row_get_const {buf : List Nat} {c w h k i : Nat} (hlen : buf.length = w * h)
    (hc : ∀ p ∈ buf, p = c) (hh : 1 ≤ h) (hw : 1 ≤ w) (hk : k ≤ h - 1) (hi : i ≤ w - 1) :
    ((buf.drop (k * w)).take w).get? i = some c := by
  have hl : i < ((buf.drop (k * w)).take w).length := by
    rw [row_length hlen hh hk]
    omega
  rw [List.get?_eq_get hl]
  have hmem : ((buf.drop (k * w)).take w).get ⟨i, hl⟩ ∈ buf :=
    List.mem_of_mem_drop (List.mem_of_mem_take (List.get_mem _ _ _))
  rw [hc _ hmem]

theorem row_get_isSome {buf : List Nat} {w h k i : Nat} (hlen : buf.length = w * h)
    (hh : 1 ≤ h) (hw : 1 ≤ w) (hk : k ≤ h - 1) (hi : i ≤ w - 1) :
    (((buf.drop (k * w)).take w).get? i).isSome = true := by
  have hl : i < ((buf.drop (k * w)).take w).length := by
    rw [row_length hlen hh hk]
    omega
  rw [List.get?_eq_get hl]
  rfl

theorem buf_u32_eq {f : Frame} (hlen : f.buf.length = f.width * f.height) :
    f.buf_u32 = f.buf := by
  unfold Frame.buf_u32
  rw [← hlen]
  exact List.take_length _

theorem bilinearRow_isSome {f : Frame} (dstW : Nat)
    (hw : 1 ≤ f.width) (hh : 1 ≤ f.height)
    (hlen : f.buf.length = f.width * f.height) {ye : Nat × Nat × ℚ}
    (hy0 : ye.1 ≤ f.height - 1) (hy1 : ye.2.1 ≤ f.height - 1) :
    (bilinearRow f.buf_u32 f.width dstW ye).isSome = true := by
  unfold bilinearRow
  rw [buf_u32_eq hlen]
  apply traverseOpt_isSome
  intro xe hxe
  rcases List.mem_map.mp hxe with ⟨xx, hxx, rfl⟩
  rw [List.mem_range] at hxx
  unfold bilinearPixel
  rcases Option.isSome_iff_exists.mp
    (row_get_isSome hlen hh hw hy0 (bilinearMapEntry_fst_le hxx)) with ⟨p00, hp00⟩
  rcases Option.isSome_iff_exists.mp
    (row_get_isSome hlen hh hw hy0 (bilinearMapEntry_snd_le f.width dstW xx)) with ⟨p10, hp10⟩
  rcases Option.isSome_iff_exists.mp
    (row_get_isSome hlen hh hw hy1 (bilinearMapEntry_fst_le hxx)) with ⟨p01, hp01⟩
  rcases Option.isSome_iff_exists.mp
    (row_get_isSome hlen hh hw hy1 (bilinearMapEntry_snd_le f.width dstW xx)) with ⟨p11, hp11⟩
  rw [hp00, hp10, hp01, hp11]
  rfl

theorem scale_rows_const {f : Frame} {c : Nat} (dstW dstH : Nat)
    (hw : 1 ≤ f.width) (hh : 1 ≤ f.height)
    (hlen : f.buf.length = f.width * f.height)
    (hc : ∀ p ∈ f.buf, p = c) (hc32 : c < 2 ^ 32) :
    traverseOpt (bilinearRow f.buf_u32 f.width dstW)
        ((List.range dstH).map (bilinearMapEntry f.height dstH))
      = some (((List.range dstH).map (bilinearMapEntry f.height dstH)).map
          (fun _ye => ((List.range dstW).map (bilinearMapEntry f.width dstW)).map
            (fun _xe => c))) := by
  apply traverseOpt_eq_map
  intro ye hye
  rcases List.mem_map.mp hye with ⟨yy, hyy, rfl⟩
  rw [List.mem_range] at hyy
  unfold bilinearRow
  rw [buf_u32_eq hlen]
  apply traverseOpt_eq_map
  intro xe hxe
  rcases List.mem_map.mp hxe with ⟨xx, hxx, rfl⟩
  rw [List.mem_range] at hxx
  unfold bilinearPixel
  rw [row_get_const hlen hc hh hw (bilinearMapEntry_fst_le hyy) (bilinearMapEntry_fst_le hxx),
    row_get_const hlen hc hh hw (bilinearMapEntry_fst_le hyy)
      (bilinearMapEntry_snd_le f.width dstW xx),
    row_get_const hlen hc hh hw (bilinearMapEntry_snd_le f.height dstH yy)
      (bilinearMapEntry_fst_le hxx),
    row_get_const hlen hc hh hw (bilinearMapEntry_snd_le f.height dstH yy)
      (bilinearMapEntry_snd_le f.width dstW xx)]
  show some (interpPixel c c c c _ _) = some c
  rw [interpPixel_const hc32]

/-- Claim C8: bilinear resampling of a uniform-colour source Frame (any
positive size, any positive factor) yields a frame every pixel of which is
the source colour — the interpolation weights cancel exactly and the final
rounding reproduces each 8-bit channel. -/
theorem scale_bilinear_uniform (f : Frame) (c : Nat) (factor : ℚ)
    (hw : 1 ≤ f.width) (hh : 1 ≤ f.height)
    (hlen : f.buf.length = f.width * f.height)
    (hc : ∀ p ∈ f.buf, p = c) (hc32 : c < 2 ^ 32) (_hpos : 0 < factor) :
    ∃ g : Frame, f.scale_bilinear factor = some g ∧ ∀ p ∈ g.buf, p = c := by
  simp only [Frame.scale_bilinear]
  rw [scale_rows_const _ _ hw hh hlen hc hc32]
  refine ⟨_, rfl, ?_⟩
  intro p hp
  rcases List.mem_flatten.mp hp with ⟨row, hrow, hpc⟩
  rcases List.mem_map.mp hrow with ⟨ye, hye, rfl⟩
  rcases List.mem_map.mp hpc with ⟨xe, hxe, hpe⟩
  exact hpe.symm

theorem scale_bilinear_uniform_witness :
    ∃ g : Frame, (⟨1, 1, [7]⟩ : Frame).scale_bilinear 2 = some g ∧ ∀ p ∈ g.buf, p = 7 :=
  scale_bilinear_uniform ⟨1, 1, [7]⟩ 7 2 (by decide) (by decide) (by decide)
    (fun p hp => List.mem_singleton.mp hp) (by decide) (by norm_num)

/-- Claim C10: `scale_bilinear` is total exactly under the precondition
`width ≥ 1 ∧ height ≥ 1` on a well-formed source frame; for a 0-width or
0-height source — including the `Frame::new(0, 0)` "no icon found"
sentinel that `IconCache::refresh` stores and `draw_icon` passes to
`scale_bilinear` — the source-row indexing goes out of bounds (in Rust,
the `src_width - 1` `usize` computation underflows in debug and the row
slice/element access panics). -/
theorem scale_bilinear_totality :
    (∀ (f : Frame) (factor : ℚ), 1 ≤ f.width → 1 ≤ f.height →
        f.buf.length = f.width * f.height →
        (f.scale_bilinear factor).isSome = true) ∧
    (∀ (f : Frame) (factor : ℚ), f.width = 0 ∨ f.height = 0 →
        f.scale_bilinear factor = none) ∧
    (∀ factor : ℚ, (Frame.new 0 0).scale_bilinear factor = none) := by
  have hpart1 : ∀ (f : Frame) (factor : ℚ), 1 ≤ f.width → 1 ≤ f.height →
      f.buf.length = f.width * f.height → (f.scale_bilinear factor).isSome = true := by
    intro f factor hw hh hlen
    simp only [Frame.scale_bilinear]
    have houter : (traverseOpt
        (bilinearRow f.buf_u32 f.width (((roundf ((f.width : ℚ) * factor)).toNat).max 1))
        ((List.range (((roundf ((f.height : ℚ) * factor)).toNat).max 1)).map
          (bilinearMapEntry f.height
            (((roundf ((f.height : ℚ) * factor)).toNat).max 1)))).isSome = true := by
      apply traverseOpt_isSome
      intro ye hye
      rcases List.mem_map.mp hye with ⟨yy, hyy, rfl⟩
      rw [List.mem_range] at hyy
      exact bilinearRow_isSome _ hw hh hlen (bilinearMapEntry_fst_le hyy)
        (bilinearMapEntry_snd_le f.height _ yy)
    rcases Option.isSome_iff_exists.mp houter with ⟨rows, hrows⟩
    rw [hrows]
    rfl
  have hpart2 : ∀ (f : Frame) (factor : ℚ), f.width = 0 ∨ f.height = 0 →
      f.scale_bilinear factor = none := by
    intro f factor h0
    simp only [Frame.scale_bilinear]
    have hbufnil : f.buf_u32 = [] := by
      unfold Frame.buf_u32
      rcases h0 with h | h
      · rw [h]
        simp
      · rw [h]
        simp
    have hrow_none : ∀ (dstW m : Nat) (ye : Nat × Nat × ℚ), dstW = m + 1 →
        bilinearRow ([] : List Nat) f.width dstW ye = none := by
      intro dstW m ye hm
      unfold bilinearRow
      rw [hm, List.range_succ_eq_map, List.map_cons]
      apply traverseOpt_cons_none
      unfold bilinearPixel
      rw [List.drop_nil, List.take_nil]
      rfl
    obtain ⟨n, hn⟩ : ∃ n, ((roundf ((f.height : ℚ) * factor)).toNat).max 1 = n + 1 :=
      ⟨((roundf ((f.height : ℚ) * factor)).toNat).max 1 - 1,
        (Nat.succ_pred_eq_of_pos
          (Nat.lt_of_lt_of_le Nat.zero_lt_one (Nat.le_max_right _ _))).symm⟩
    obtain ⟨mw, hmw⟩ : ∃ mw, ((roundf ((f.width : ℚ) * factor)).toNat).max 1 = mw + 1 :=
      ⟨((roundf ((f.width : ℚ) * factor)).toNat).max 1 - 1,
        (Nat.succ_pred_eq_of_pos
          (Nat.lt_of_lt_of_le Nat.zero_lt_one (Nat.le_max_right _ _))).symm⟩
    rw [hbufnil, hn, List.range_succ_eq_map, List.map_cons,
      traverseOpt_cons_none (hrow_none _ mw _ hmw)]
  exact ⟨hpart1, hpart2, fun factor => hpart2 (Frame.new 0 0) factor (Or.inl rfl)⟩

theorem scale_bilinear_totality_witness :
    ((⟨1, 1, [5]⟩ : Frame).scale_bilinear 1).isSome = true ∧
    (⟨0, 1, []⟩ : Frame).scale_bilinear 1 = none :=
  ⟨scale_bilinear_totality.1 ⟨1, 1, [5]⟩ 1 (by decide) (by decide) (by decide),
   scale_bilinear_totality.2.1 ⟨0, 1, []⟩ 1 (Or.inl rfl)⟩

/-! ### Text renderer glyph cache -/

theorem TextRenderer.cache_ascii_field (tr : TextRenderer) (c : Char) :
    (tr.cache c).ascii = tr.ascii := by
  unfold TextRenderer.cache
  split
  · rfl
  · split
    · rfl
    · split
      · split <;> rfl
      · rfl

/-- Claim C2 (amended): for every character with code point ≥ 256 the
claimed behaviour holds: from a state where `c` is not yet memoized,
`cache c` stores the glyph rasterized by the first font in priority order
containing `c` (the blank sentinel when no loaded font has the glyph or
the bitmap is empty), `get c` returns exactly that entry, and a second
`cache c` is a no-op, so rasterization is never retried.  For the
non-ASCII code points 128..=255, however, `get c` ignores the memoized
overflow entry and returns the Latin-1 table entry pre-rasterized from
font index 0 at construction. -/
theorem textrenderer_cache_get_spec (tr : TextRenderer) (c : Char)
    (h256 : 256 ≤ c.toNat) (hfresh : tr.others c = none) :
    ((tr.cache c).get c = some
      (match tr.font_for_char c with
       | some font =>
         if (font.rasterize c tr.size).2.isEmpty then RasterizedGlyph.blank
         else font.rasterize c tr.size
       | none => RasterizedGlyph.blank)) ∧
    (tr.cache c).cache c = tr.cache c ∧
    (∀ c' : Char, 128 ≤ c'.toNat → ∀ hlt : c'.toNat < 256,
      (tr.cache c').get c' = some (tr.ascii ⟨c'.toNat, hlt⟩)) := by
  have hnasc : charIsAscii c = false := by
    unfold charIsAscii
    simp only [decide_eq_false_iff_not]
    omega
  have hcache : tr.cache c = match tr.font_for_char c with
      | some font =>
        if (font.rasterize c tr.size).2.isEmpty then
          { tr with others := fun x => if x = c then some RasterizedGlyph.blank else tr.others x }
        else
          { tr with others := fun x => if x = c then some (font.rasterize c tr.size) else tr.others x }
      | none =>
        { tr with others := fun x => if x = c then some RasterizedGlyph.blank else tr.others x } := by
    unfold TextRenderer.cache
    rw [hnasc, hfresh]
    rfl
  have hothers : (tr.cache c).others c = some
      (match tr.font_for_char c with
       | some font =>
         if (font.rasterize c tr.size).2.isEmpty then RasterizedGlyph.blank
         else font.rasterize c tr.size
       | none => RasterizedGlyph.blank) := by
    rw [hcache]
    rcases tr.font_for_char c with _ | font
    · simp
    · by_cases he : (font.rasterize c tr.size).2.isEmpty
      · simp [he]
      · simp [he]
  refine ⟨?_, ?_, ?_⟩
  · unfold TextRenderer.get
    rw [dif_neg (by omega)]
    rw [show (none : Option RasterizedGlyph).orElse (fun _ => (tr.cache c).others c)
        = (tr.cache c).others c from rfl]
    exact hothers
  · set t := tr.cache c with ht
    unfold TextRenderer.cache
    rw [hnasc, hothers]
    simp
  · intro c' h128 hlt
    unfold TextRenderer.get
    rw [dif_pos hlt, TextRenderer.cache_ascii_field]
    rfl

/-- Claim C2 (counterexample): for the non-ASCII Latin-1 character with
code point 200, after `cache` the entry returned by `get` is NOT the glyph
rasterized from the first font in priority order containing it
(`cxFont1`, bitmap `[1, 2]`): `get` answers from the Latin-1 table
pre-rasterized against font index 0 (bitmap `[7]`). -/
theorem textrenderer_get_latin1_counterexample :
    (cxTR.cache (Char.ofNat 200)).get (Char.ofNat 200)
      ≠ some (cxFont1.rasterize (Char.ofNat 200) cxTR.size) := by
  decide

theorem textrenderer_cache_get_spec_witness :
    (cxTR.cache (Char.ofNat 960)).get (Char.ofNat 960) = some
      (match cxTR.font_for_char (Char.ofNat 960) with
       | some font =>
         if (font.rasterize (Char.ofNat 960) cxTR.size).2.isEmpty then RasterizedGlyph.blank
         else font.rasterize (Char.ofNat 960) cxTR.size
       | none => RasterizedGlyph.blank) :=
  (textrenderer_cache_get_spec cxTR (Char.ofNat 960) (by decide) rfl).1

end Goto
